import Mathlib

/-!
A shallow embedding of `multiarchcompiler.py` (the build-orchestration core of
the multiarchcompiler repository): configuration validation, per-architecture
template expansion, container command construction, and the sequential build
loop.  Python strings are modelled as `List Char`; the process's random source
is modelled as an explicit stream of choices; external effects (file existence,
subprocess execution, temporary directories) are modelled by an `Env` of
oracles, and the observable behaviour of the build loop is a list of events
plus the process exit code.
-/

set_option autoImplicit false
set_option maxRecDepth 8000

namespace MultiArchCompiler

/-! ### String primitives

`listStartsWith p s` decides whether `p` is a leading segment of `s`, and
`occurs p s` decides whether `p` appears as a contiguous substring of `s`.
These model the substring scanning done by Python's `str.replace`. -/

def listStartsWith : List Char → List Char → Bool
  | [], _ => true
  | _ :: _, [] => false
  | a :: as, b :: bs => a == b && listStartsWith as bs

def occurs (p : List Char) : List Char → Bool
  | [] => listStartsWith p []
  | c :: cs => listStartsWith p (c :: cs) || occurs p cs

/-! ### `randomstr` (source lines 137-139)

`randomstr(length)` returns `''.join(random.choice(string.ascii_lowercase) for
i in range(length))`.  The stream of outcomes of the successive
`random.choice` calls is modelled by a function `g : Nat → Fin 26`. -/

def ascii_lowercase : List Char := "abcdefghijklmnopqrstuvwxyz".data

def randomstr (g : Nat → Fin 26) (len : Nat) : List Char :=
  (List.range len).map fun i => ascii_lowercase.get (Fin.cast (by decide) (g i))

/-! ### Python `str.replace` (used by `formatStringArch`, source line 149)

`s.replace(pat, rep)` replaces every leftmost non-overlapping occurrence of
`pat` in `s` by `rep`, scanning left to right and never rescanning replaced
text.  The recursion consumes at least one character of `s` per step (the
patterns used by the program are non-empty), so it is implemented with a fuel
parameter initialised to `s.length`, which is always sufficient. -/

def pyReplaceF : Nat → List Char → List Char → List Char → List Char
  | _, [], _, _ => []
  | 0, s, _, _ => s
  | fuel + 1, c :: cs, pat, rep =>
    if pat ≠ [] ∧ listStartsWith pat (c :: cs) = true then
      rep ++ pyReplaceF fuel ((c :: cs).drop pat.length) pat rep
    else
      c :: pyReplaceF fuel cs pat rep

def pyReplace (s pat rep : List Char) : List Char :=
  pyReplaceF s.length s pat rep

/-! ### `formatStringArch` (source lines 148-149)

`formatStringArch(arch, string)` is
`string.replace('{arch}', arch).replace('{random}', randomstr(20))`.
Note that `randomstr(20)` is evaluated once per call, so every occurrence of
the random placeholder in the template receives the same value. -/

def formatStringArch (g : Nat → Fin 26) (arch s : List Char) : List Char :=
  pyReplace (pyReplace s "{arch}".data arch) "{random}".data (randomstr g 20)

/-! ### JSON values and Python runtime types

The configuration is `json.loads` of the config file: a JSON value.  The
validator only ever inspects the *runtime type* of a value
(`type(config[key]) == options[key]['type']`), modelled by `typeOf`, and the
type's `__name__`, modelled by `PyType.pyName`. -/

inductive JValue where
  | vnull
  | vbool (b : Bool)
  | vint (n : Int)
  | vstr (s : List Char)
  | vlist (l : List JValue)
  | vobj (o : List (List Char × JValue))

inductive PyType where
  | noneT
  | boolT
  | intT
  | strT
  | listT
  | dictT
deriving DecidableEq

def typeOf : JValue → PyType
  | JValue.vnull => PyType.noneT
  | JValue.vbool _ => PyType.boolT
  | JValue.vint _ => PyType.intT
  | JValue.vstr _ => PyType.strT
  | JValue.vlist _ => PyType.listT
  | JValue.vobj _ => PyType.dictT

def PyType.pyName : PyType → List Char
  | PyType.noneT => "NoneType".data
  | PyType.boolT => "bool".data
  | PyType.intT => "int".data
  | PyType.strT => "str".data
  | PyType.listT => "list".data
  | PyType.dictT => "dict".data

/-! ### Python dicts as association lists

A Python dict preserves insertion order; updating an existing key keeps its
position, and assigning a new key appends it at the end. -/

def Config := List (List Char × JValue)

def dictGet : Config → List Char → Option JValue
  | [], _ => none
  | (k, v) :: rest, key => if k = key then some v else dictGet rest key

def dictSet : Config → List Char → JValue → Config
  | [], key, val => [(key, val)]
  | (k, v) :: rest, key, val =>
    if k = key then (k, val) :: rest else (k, v) :: dictSet rest key val

/-! ### The `options` schema (source lines 18-61) -/

structure OptionSpec where
  type : PyType
  required : Bool
  default : JValue
  help : List Char

def volumesSpec : OptionSpec :=
  ⟨PyType.listT, true, JValue.vstr "(none)".data,
    "should be an list of strings following docker volume format".data⟩

def dockerargsSpec : OptionSpec :=
  ⟨PyType.strT, false, JValue.vstr "".data,
    "additional arguments to pass to docker".data⟩

def archesSpec : OptionSpec :=
  ⟨PyType.listT, true, JValue.vstr "(none)".data,
    "an list of strings containing the arches you want to compile for".data⟩

def imageSpec : OptionSpec :=
  ⟨PyType.strT, true, JValue.vstr "(none)".data, "the image to use".data⟩

def containernameSpec : OptionSpec :=
  ⟨PyType.strT, false, JValue.vstr "{random}-{arch}".data,
    "the name format for naming the docker containers".data⟩

def buildSpec : OptionSpec :=
  ⟨PyType.strT, true, JValue.vstr "(none)".data,
    "path to the script to compile your program".data⟩

def removecontainersSpec : OptionSpec :=
  ⟨PyType.boolT, false, JValue.vbool true,
    "remove the containers after the compilation has completed".data⟩

/-- The schema entries, in the iteration order of the Python dict
(insertion order of source lines 18-61). -/
def optionsList : List (List Char × OptionSpec) :=
  [("volumes".data, volumesSpec),
   ("dockerargs".data, dockerargsSpec),
   ("arches".data, archesSpec),
   ("image".data, imageSpec),
   ("containername".data, containernameSpec),
   ("build".data, buildSpec),
   ("removecontainers".data, removecontainersSpec)]

/-! ### `validateConfig` (source lines 152-170) -/

def typeErrMsg (k : List Char) (v : JValue) (s : OptionSpec) : List Char :=
  "The option \"".data ++ k ++ "\" is type \"".data ++ (typeOf v).pyName ++
    "\" but it should be of type \"".data ++ s.type.pyName ++ "\"\n".data

def missingErrMsg (k : List Char) : List Char :=
  "The required option \"".data ++ k ++ "\" is not found\n".data

/-- One iteration of the `for key in options` loop: if the key is present its
runtime type is checked (a mismatch appends an error and leaves the config
unchanged); if absent (`KeyError`), a required key appends an error and an
optional key is assigned its declared default. -/
def checkOption (d : Config) (e : List Char) (k : List Char) (s : OptionSpec) :
    Config × List Char :=
  match dictGet d k with
  | some v =>
    if typeOf v = s.type then (d, e) else (d, e ++ typeErrMsg k v s)
  | none =>
    if s.required then (d, e ++ missingErrMsg k)
    else (dictSet d k s.default, e)

def processOptions (d : Config) (e : List Char) :
    List (List Char × OptionSpec) → Config × List Char
  | [] => (d, e)
  | (k, s) :: rest =>
    let p := checkOption d e k s
    processOptions p.1 p.2 rest

/-- `validateConfig(config)`: run the accumulation loop over the whole schema;
if any error text was accumulated, print it and `exit(1)` (modelled as
`Except.error` carrying the accumulated text), otherwise return the (mutated)
config. -/
def validateConfig (d : Config) : Except (List Char) Config :=
  let p := processOptions d [] optionsList
  if p.2.length ≠ 0 then Except.error p.2 else Except.ok p.1

/-- The error text accumulated by `validateConfig` on `d`. -/
def errorsOf (d : Config) : List Char := (processOptions d [] optionsList).2

/-- The configuration produced by `validateConfig`'s loop on `d`
(returned only when no errors were accumulated). -/
def resultOf (d : Config) : Config := (processOptions d [] optionsList).1

/-- The error contribution of a single schema entry, evaluated against a fixed
configuration: nonempty exactly when the key is present with the wrong runtime
type, or absent but required. -/
def keyMsg (d : Config) (k : List Char) (s : OptionSpec) : List Char :=
  match dictGet d k with
  | some v => if typeOf v = s.type then [] else typeErrMsg k v s
  | none => if s.required then missingErrMsg k else []

/-- The configuration update performed by a single schema entry. -/
def keyCfg (d : Config) (k : List Char) (s : OptionSpec) : Config :=
  match dictGet d k with
  | some _ => d
  | none => if s.required then d else dictSet d k s.default

/-! ### Python `str.format` (used on source line 251)

`template.format(name=..., image=..., ...)` scans the template once; every
`{field}` is substituted by the corresponding keyword argument and replacement
text is never rescanned.  The template of the program contains no escaped
braces and only known fields, so this restricted model is exact for it.  As
with `pyReplaceF`, fuel initialised to the template length is sufficient. -/

def assocGet (fields : List (List Char × List Char)) (key : List Char) : List Char :=
  match fields with
  | [] => []
  | (k, v) :: rest => if k = key then v else assocGet rest key

def pyFormatF (fields : List (List Char × List Char)) : Nat → List Char → List Char
  | _, [] => []
  | 0, s => s
  | fuel + 1, c :: cs =>
    if c = '{' then
      assocGet fields (cs.takeWhile fun d => d != '}') ++
        pyFormatF fields fuel ((cs.dropWhile fun d => d != '}').drop 1)
    else
      c :: pyFormatF fields fuel cs

def pyFormat (fields : List (List Char × List Char)) (s : List Char) : List Char :=
  pyFormatF fields s.length s

/-! ### The validated configuration as used by the build loop

After validation every schema key is present; the loop reads
`config['volumes']`, `config['arches']`, etc. as values of their schema types.
`RunConfig` records those values. -/

structure RunConfig where
  volumes : List (List Char)
  dockerargs : List Char
  arches : List (List Char)
  image : List Char
  containername : List Char
  build : List Char
  removecontainers : Bool

/-- The pre-loop accumulation (source lines 230-233):
`volumes = ''` then `volumes += f'-v "{volume}"'` for each volume, with no
separator between consecutive mount arguments. -/
def mountArg (v : List Char) : List Char := "-v \"".data ++ v ++ "\"".data

def volumesString (vs : List (List Char)) : List Char :=
  vs.foldl (fun acc v => acc ++ mountArg v) []

/-- The `docker run` template of source line 251, verbatim. -/
def dockerTemplate : List Char :=
  "docker run {rm} -v \"{tmpdir}:/buildcommand\" --name \"{name}\" {volumes} {dockerargs} \"{image}\" bash /buildcommand/build.sh 2>&1".data

/-- The container-invocation command string for one architecture (source lines
248-257): the `.format` keyword arguments are evaluated left to right, so the
random streams `g1`, `g2`, `g3` feed the `name`, `image` and `dockerargs`
expansions in that order. -/
def buildCommand (cfg : RunConfig) (arch tmpdir : List Char)
    (g1 g2 g3 : Nat → Fin 26) : List Char :=
  pyFormat
    [("name".data, formatStringArch g1 arch cfg.containername),
     ("image".data, formatStringArch g2 arch cfg.image),
     ("tmpdir".data, tmpdir),
     ("dockerargs".data, formatStringArch g3 arch cfg.dockerargs),
     ("volumes".data, volumesString cfg.volumes),
     ("rm".data, if cfg.removecontainers then "--rm".data else [])]
    dockerTemplate

/-! ### Output tagging (source line 258)

`'[docker output]: ' + '\n[docker output]: '.join(r.stdout.split('\n'))`. -/

def splitNl : List Char → List (List Char)
  | [] => [[]]
  | c :: cs =>
    if c = '\n' then [] :: splitNl cs
    else
      match splitNl cs with
      | [] => [[c]]
      | h :: t => (c :: h) :: t

def dockerTag : List Char := "[docker output]: ".data

def tagJoin (tag out : List Char) : List Char :=
  tag ++ List.intercalate ('\n' :: tag) (splitNl out)

def cannotFindMsg (p : List Char) : List Char :=
  "cannot find build script \"".data ++ p ++ "\"".data

/-! ### The build loop (source lines 235-258)

External effects are oracles in `Env`:
* `fileExists p` — whether `open(p)` succeeds for the templated build path;
* `run cmd` — the `(stdout, returncode)` of `subprocess.run(cmd, shell=True,
  capture_output=True, text=True)`; the loop reads only the stdout text, the
  return code is never inspected;
* `tmpdir i` — the name of the `tempfile.TemporaryDirectory()` of iteration
  `i`;
* `rand k` — the random stream consumed by the `k`-th `formatStringArch`
  call of the loop (each call draws fresh randomness). -/

structure Env where
  fileExists : List Char → Bool
  run : List Char → List Char × Int
  tmpdir : Nat → List Char
  rand : Nat → Nat → Fin 26

/-- Observable events of one run of the loop, in order.  `tmpRemove` is
emitted when the `with tempfile.TemporaryDirectory()` block is exited, which
Python guarantees both on normal completion of the iteration body and when
`exit(1)` (a `SystemExit`) propagates out of it. -/
inductive Event where
  | tmpCreate (dir : List Char)
  | logBuilding (arch : List Char)
  | logError (msg : List Char)
  | invoke (cmd : List Char)
  | logOutput (text : List Char)
  | tmpRemove (dir : List Char)
deriving DecidableEq

/-- The `for arch in config['arches']` loop.  `i` numbers the iteration (for
the temporary-directory oracle) and `k` counts `formatStringArch` calls made
so far.  Per iteration: enter the temporary directory context, log
`building for <arch>`, try to open the templated build path; on
`FileNotFoundError` log the error (re-templating the path, a second
`formatStringArch` call) and `exit(1)`; otherwise stage the script, build the
command string (three more `formatStringArch` calls, for `name`, `image` and
`dockerargs`), run it, and log its tagged stdout.  Returns the event trace and
the process exit code (`0` after the loop completes, as the script simply
ends). -/
def buildLoop (env : Env) (cfg : RunConfig) :
    List (List Char) → Nat → Nat → List Event × Nat
  | [], _, _ => ([], 0)
  | arch :: rest, i, k =>
    let dir := env.tmpdir i
    let bpath := formatStringArch (env.rand k) arch cfg.build
    if env.fileExists bpath = true then
      let cmd := buildCommand cfg arch dir (env.rand (k + 1)) (env.rand (k + 2))
        (env.rand (k + 3))
      let out := (env.run cmd).fst
      let p := buildLoop env cfg rest (i + 1) (k + 4)
      (Event.tmpCreate dir :: Event.logBuilding arch :: Event.invoke cmd ::
        Event.logOutput (tagJoin dockerTag out) :: Event.tmpRemove dir :: p.fst,
       p.snd)
    else
      ([Event.tmpCreate dir, Event.logBuilding arch,
        Event.logError (cannotFindMsg (formatStringArch (env.rand (k + 1)) arch cfg.build)),
        Event.tmpRemove dir], 1)

/-! ### Trace projections and expected shapes -/

def invokedCmds (evs : List Event) : List (List Char) :=
  evs.filterMap fun e =>
    match e with
    | Event.invoke c => some c
    | _ => none

def loggedOutputs (evs : List Event) : List (List Char) :=
  evs.filterMap fun e =>
    match e with
    | Event.logOutput t => some t
    | _ => none

def createdDirs (evs : List Event) : List (List Char) :=
  evs.filterMap fun e =>
    match e with
    | Event.tmpCreate d => some d
    | _ => none

def removedDirs (evs : List Event) : List (List Char) :=
  evs.filterMap fun e =>
    match e with
    | Event.tmpRemove d => some d
    | _ => none

/-- Every architecture of the list finds its (templated) build script,
iteration counters starting at `k`. -/
def allScriptsFound (env : Env) (cfg : RunConfig) :
    List (List Char) → Nat → Prop
  | [], _ => True
  | arch :: rest, k =>
    env.fileExists (formatStringArch (env.rand k) arch cfg.build) = true ∧
      allScriptsFound env cfg rest (k + 4)

/-- The container commands the loop issues for a list of architectures it
processes successfully, starting at iteration `i` and random-call counter
`k`. -/
def expectedCmds (env : Env) (cfg : RunConfig) :
    List (List Char) → Nat → Nat → List (List Char)
  | [], _, _ => []
  | arch :: rest, i, k =>
    buildCommand cfg arch (env.tmpdir i) (env.rand (k + 1)) (env.rand (k + 2))
      (env.rand (k + 3)) :: expectedCmds env cfg rest (i + 1) (k + 4)

/-- The tagged container outputs the loop logs for a list of architectures it
processes successfully. -/
def expectedOutputs (env : Env) (cfg : RunConfig) :
    List (List Char) → Nat → Nat → List (List Char)
  | [], _, _ => []
  | arch :: rest, i, k =>
    tagJoin dockerTag
        (env.run (buildCommand cfg arch (env.tmpdir i) (env.rand (k + 1))
          (env.rand (k + 2)) (env.rand (k + 3)))).fst ::
      expectedOutputs env cfg rest (i + 1) (k + 4)

/-! ### Concrete sample data -/

/-- A constant random stream (all choices pick letter index 0). -/
def randA : Nat → Fin 26 := fun _ => 0

/-- A constant random stream (all choices pick letter index 1). -/
def randB : Nat → Fin 26 := fun _ => 1

/-- A configuration with a wrong-typed `volumes` and several missing required
keys. -/
def badConfig : Config := [("volumes".data, JValue.vstr "x".data)]

/-- A configuration with all required keys present and well-typed and all
optional keys absent. -/
def okConfig : Config :=
  [("volumes".data, JValue.vlist []),
   ("arches".data, JValue.vlist [JValue.vstr "a".data]),
   ("image".data, JValue.vstr "img".data),
   ("build".data, JValue.vstr "b.sh".data)]

/-- `okConfig` with an additional key unknown to the schema. -/
def extraConfig : Config :=
  [("volumes".data, JValue.vlist []),
   ("arches".data, JValue.vlist [JValue.vstr "a".data]),
   ("image".data, JValue.vstr "img".data),
   ("build".data, JValue.vstr "b.sh".data),
   ("extra".data, JValue.vint 7)]

/-- A run configuration whose templated build path is the architecture name
itself. -/
def loopCfg : RunConfig :=
  { volumes := ["h:/c".data]
    dockerargs := "".data
    arches := ["a".data, "b".data, "c".data]
    image := "img-{arch}".data
    containername := "{random}-{arch}".data
    build := "{arch}".data
    removecontainers := true }

/-- An environment in which only the build script named `a` exists. -/
def envMissing : Env :=
  { fileExists := fun p => p = "a".data
    run := fun _ => ("out".data, 0)
    tmpdir := fun _ => "tmp".data
    rand := fun _ => randA }

/-- An environment in which every build script exists and every container
invocation returns a non-zero exit code. -/
def envFailing : Env :=
  { fileExists := fun _ => true
    run := fun _ => ("boom".data, 2)
    tmpdir := fun _ => "tmp".data
    rand := fun _ => randA }

/-! ## Lemmas about the string primitives -/

theorem listStartsWith_append (p t : List Char) :
    listStartsWith p (p ++ t) = true := by
  induction p with
  | nil => rfl
  | cons a as ih => simp [listStartsWith, ih]

theorem occurs_of_startsWith (p s : List Char)
    (h : listStartsWith p s = true) : occurs p s = true := by
  cases s with
  | nil => exact h
  | cons c cs => simp [occurs, h]

theorem occurs_self_append (p t : List Char) : occurs p (p ++ t) = true :=
  occurs_of_startsWith _ _ (listStartsWith_append p t)

theorem occurs_append_right (p s t : List Char) (h : occurs p t = true) :
    occurs p (s ++ t) = true := by
  induction s with
  | nil => exact h
  | cons c cs ih => simp [occurs, ih]

theorem occurs_infix (p x y : List Char) : occurs p (x ++ (p ++ y)) = true :=
  occurs_append_right p x (p ++ y) (occurs_self_append p y)

theorem occurs_flatten_of_mem {m : List Char} {L : List (List Char)}
    (h : m ∈ L) : occurs m L.flatten = true := by
  obtain ⟨s, t, rfl⟩ := List.append_of_mem h
  rw [List.flatten_append, List.flatten_cons]
  exact occurs_infix m s.flatten t.flatten

/-! ## Lemmas about `pyReplace` -/

theorem pyReplaceF_nil (f : Nat) (pat rep : List Char) :
    pyReplaceF f [] pat rep = [] := by
  cases f <;> rfl

theorem pyReplaceF_cons (f : Nat) (c : Char) (cs pat rep : List Char) :
    pyReplaceF (f + 1) (c :: cs) pat rep =
      if pat ≠ [] ∧ listStartsWith pat (c :: cs) = true then
        rep ++ pyReplaceF f ((c :: cs).drop pat.length) pat rep
      else
        c :: pyReplaceF f cs pat rep := rfl

theorem pyReplaceF_congr (f1 : Nat) :
    ∀ (f2 : Nat) (s pat rep : List Char), s.length ≤ f1 → s.length ≤ f2 →
      pyReplaceF f1 s pat rep = pyReplaceF f2 s pat rep := by
  induction f1 with
  | zero =>
    intro f2 s pat rep h1 _
    obtain rfl : s = [] := List.eq_nil_of_length_eq_zero (Nat.le_zero.mp h1)
    rw [pyReplaceF_nil, pyReplaceF_nil]
  | succ f ih =>
    intro f2 s pat rep h1 h2
    cases s with
    | nil => rw [pyReplaceF_nil, pyReplaceF_nil]
    | cons c cs =>
      cases f2 with
      | zero => exact absurd h2 (by simp)
      | succ f2 =>
        rw [pyReplaceF_cons, pyReplaceF_cons]
        by_cases h : pat ≠ [] ∧ listStartsWith pat (c :: cs) = true
        · rw [if_pos h, if_pos h]
          have hplen : 1 ≤ pat.length := by
            cases pat with
            | nil => exact absurd rfl h.1
            | cons _ _ => simp
          have hdrop : ((c :: cs).drop pat.length).length ≤ cs.length := by
            rw [List.length_drop]
            simp only [List.length_cons]
            omega
          simp only [List.length_cons] at h1 h2
          exact congrArg (rep ++ ·)
            (ih f2 _ pat rep (le_trans hdrop (by omega)) (le_trans hdrop (by omega)))
        · rw [if_neg h, if_neg h]
          simp only [List.length_cons] at h1 h2
          exact congrArg (c :: ·) (ih f2 cs pat rep (by omega) (by omega))

theorem pyReplace_nil (pat rep : List Char) : pyReplace [] pat rep = [] := rfl

theorem pyReplace_cons (c : Char) (cs pat rep : List Char) :
    pyReplace (c :: cs) pat rep =
      if pat ≠ [] ∧ listStartsWith pat (c :: cs) = true then
        rep ++ pyReplace ((c :: cs).drop pat.length) pat rep
      else
        c :: pyReplace cs pat rep := by
  unfold pyReplace
  rw [show (c :: cs).length = cs.length + 1 from rfl, pyReplaceF_cons]
  by_cases h : pat ≠ [] ∧ listStartsWith pat (c :: cs) = true
  · rw [if_pos h, if_pos h]
    refine congrArg (rep ++ ·) (pyReplaceF_congr cs.length _ _ pat rep ?_ le_rfl)
    have hplen : 1 ≤ pat.length := by
      cases pat with
      | nil => exact absurd rfl h.1
      | cons _ _ => simp
    rw [List.length_drop]
    simp only [List.length_cons]
    omega
  · rw [if_neg h, if_neg h]

theorem pyReplace_not_occurs (s pat rep : List Char)
    (h : occurs pat s = false) : pyReplace s pat rep = s := by
  induction s with
  | nil => rfl
  | cons c cs ih =>
    simp only [occurs, Bool.or_eq_false_iff] at h
    rw [pyReplace_cons, if_neg (by simp [h.1]), ih h.2]

theorem pyReplace_head (pat v rep : List Char) (hp : pat ≠ []) :
    pyReplace (pat ++ v) pat rep = rep ++ pyReplace v pat rep := by
  cases pat with
  | nil => exact absurd rfl hp
  | cons p ps =>
    rw [List.cons_append, pyReplace_cons,
      if_pos ⟨hp, by rw [← List.cons_append]; exact listStartsWith_append _ v⟩,
      ← List.cons_append, List.drop_left]

theorem pyReplace_mid (u pat v rep : List Char) (hp : pat ≠ [])
    (hu : ∀ i, i < u.length →
      listStartsWith pat ((u ++ (pat ++ v)).drop i) = false) :
    pyReplace (u ++ (pat ++ v)) pat rep = u ++ rep ++ pyReplace v pat rep := by
  induction u with
  | nil => simpa using pyReplace_head pat v rep hp
  | cons c cs ih =>
    have h0 := hu 0 (by simp)
    rw [List.drop_zero, List.cons_append] at h0
    have hrec := ih fun i hi => by
      have h1 := hu (i + 1) (by simpa using Nat.succ_lt_succ hi)
      rw [List.cons_append, List.drop_succ_cons] at h1
      exact h1
    rw [List.cons_append, pyReplace_cons, if_neg (by simp [h0]), hrec]
    simp

/-! ## Lemmas about `randomstr` -/

theorem randomstr_length (g : Nat → Fin 26) (n : Nat) :
    (randomstr g n).length = n := by
  simp [randomstr]

theorem randomstr_mem (g : Nat → Fin 26) (n : Nat) {c : Char}
    (h : c ∈ randomstr g n) : c ∈ ascii_lowercase := by
  simp only [randomstr, List.mem_map] at h
  obtain ⟨i, _, rfl⟩ := h
  exact List.get_mem _ _ _

/-! ## Lemmas about `formatStringArch` -/

theorem expand_double_random (g : Nat → Fin 26) (arch : List Char) :
    formatStringArch g arch "{random}-{random}".data =
      randomstr g 20 ++ '-' :: randomstr g 20 := by
  have h : formatStringArch g arch "{random}-{random}".data =
      randomstr g 20 ++ '-' :: (randomstr g 20 ++ []) := rfl
  simpa using h

theorem expand_single_random (g : Nat → Fin 26) (arch : List Char) :
    formatStringArch g arch "{random}".data = randomstr g 20 := by
  have h : formatStringArch g arch "{random}".data = randomstr g 20 ++ [] := rfl
  simpa using h

theorem formatStringArch_no_placeholders (g : Nat → Fin 26)
    (arch t : List Char) (ha : occurs "{arch}".data t = false)
    (hr : occurs "{random}".data t = false) :
    formatStringArch g arch t = t := by
  unfold formatStringArch
  rw [pyReplace_not_occurs _ _ _ ha, pyReplace_not_occurs _ _ _ hr]

/-! ## Lemmas about the validator -/

theorem dictGet_dictSet_self (d : Config) (k : List Char) (v : JValue) :
    dictGet (dictSet d k v) k = some v := by
  induction d with
  | nil => simp [dictGet, dictSet]
  | cons p rest ih =>
    obtain ⟨k1, v1⟩ := p
    by_cases h : k1 = k
    · subst h
      simp [dictGet, dictSet]
    · simp [dictGet, dictSet, h, ih]

theorem dictGet_dictSet_ne (d : Config) (k k2 : List Char) (v : JValue)
    (h : k2 ≠ k) : dictGet (dictSet d k v) k2 = dictGet d k2 := by
  induction d with
  | nil => simp [dictGet, dictSet, Ne.symm h]
  | cons p rest ih =>
    obtain ⟨k1, v1⟩ := p
    by_cases hp : k1 = k
    · subst hp
      simp [dictGet, dictSet, Ne.symm h]
    · by_cases hp2 : k1 = k2
      · subst hp2
        simp [dictGet, dictSet, h]
      · simp [dictGet, dictSet, hp, hp2, ih]

theorem checkOption_eq (d : Config) (e : List Char) (k : List Char)
    (s : OptionSpec) :
    checkOption d e k s = (keyCfg d k s, e ++ keyMsg d k s) := by
  unfold checkOption keyCfg keyMsg
  cases dictGet d k with
  | none =>
    by_cases h : s.required = true
    · simp [h]
    · simp [h]
  | some v =>
    by_cases h : typeOf v = s.type
    · simp [h]
    · simp [h]

theorem processOptions_append (L : List (List Char × OptionSpec)) :
    ∀ (d : Config) (e : List Char),
      processOptions d e L =
        ((processOptions d [] L).1, e ++ (processOptions d [] L).2) := by
  induction L with
  | nil => intro d e; simp [processOptions]
  | cons p rest ih =>
    intro d e
    obtain ⟨k, s⟩ := p
    show processOptions (checkOption d e k s).1 (checkOption d e k s).2 rest = _
    rw [checkOption_eq]
    rw [ih (keyCfg d k s) (e ++ keyMsg d k s)]
    conv_rhs =>
      rw [show processOptions d [] ((k, s) :: rest) =
        processOptions (checkOption d [] k s).1 (checkOption d [] k s).2 rest from rfl]
      rw [checkOption_eq]
      rw [ih (keyCfg d k s) ([] ++ keyMsg d k s)]
    simp

theorem dictGet_keyCfg_ne (d : Config) (k k2 : List Char) (s : OptionSpec)
    (h : k2 ≠ k) : dictGet (keyCfg d k s) k2 = dictGet d k2 := by
  unfold keyCfg
  cases dictGet d k with
  | some v => rfl
  | none =>
    by_cases hr : s.required = true
    · simp [hr]
    · simp [hr, dictGet_dictSet_ne d k k2 s.default h]

theorem keyMsg_congr (d1 d2 : Config) (k : List Char) (s : OptionSpec)
    (h : dictGet d1 k = dictGet d2 k) : keyMsg d1 k s = keyMsg d2 k s := by
  unfold keyMsg
  rw [h]

/-- The error text accumulated over a schema fragment with pairwise-distinct
keys is exactly the concatenation of the per-key error contributions, each
evaluated against the initial configuration. -/
theorem processOptions_errors_flatten (L : List (List Char × OptionSpec)) :
    ∀ d : Config, (L.map Prod.fst).Nodup →
      (processOptions d [] L).2 = (L.map fun p => keyMsg d p.1 p.2).flatten := by
  induction L with
  | nil => intro d _; rfl
  | cons p rest ih =>
    intro d hnd
    obtain ⟨k, s⟩ := p
    rw [List.map_cons, List.nodup_cons] at hnd
    show (processOptions (checkOption d [] k s).1 (checkOption d [] k s).2 rest).2 = _
    rw [checkOption_eq, List.nil_append,
      processOptions_append rest (keyCfg d k s) (keyMsg d k s),
      ih (keyCfg d k s) hnd.2, List.map_cons, List.flatten_cons]
    refine congrArg (keyMsg d k s ++ ·) (congrArg List.flatten ?_)
    refine List.map_congr_left fun q hq => ?_
    refine keyMsg_congr _ _ _ _ (dictGet_keyCfg_ne d k q.1 s ?_)
    intro hqk
    have hmem : q.1 ∈ rest.map Prod.fst := List.mem_map_of_mem Prod.fst hq
    rw [hqk] at hmem
    exact hnd.1 hmem

theorem processOptions_get_not_mem (L : List (List Char × OptionSpec)) :
    ∀ (d : Config) (k : List Char), k ∉ L.map Prod.fst →
      dictGet (processOptions d [] L).1 k = dictGet d k := by
  induction L with
  | nil => intro d k _; rfl
  | cons p rest ih =>
    intro d k hk
    obtain ⟨k0, s0⟩ := p
    rw [List.map_cons, List.mem_cons] at hk
    push_neg at hk
    show dictGet (processOptions (checkOption d [] k0 s0).1 (checkOption d [] k0 s0).2 rest).1 k = _
    rw [checkOption_eq, processOptions_append rest (keyCfg d k0 s0)]
    exact (ih (keyCfg d k0 s0) k hk.2).trans
      (dictGet_keyCfg_ne d k0 k s0 hk.1)

theorem processOptions_get_mem (L : List (List Char × OptionSpec)) :
    ∀ (d : Config) (k : List Char) (s : OptionSpec),
      (L.map Prod.fst).Nodup → (k, s) ∈ L →
      dictGet (processOptions d [] L).1 k =
        (match dictGet d k with
         | some v => some v
         | none => if s.required then none else some s.default) := by
  induction L with
  | nil => intro d k s _ hm; exact absurd hm (List.not_mem_nil _)
  | cons p rest ih =>
    intro d k s hnd hm
    obtain ⟨k0, s0⟩ := p
    rw [List.map_cons, List.nodup_cons] at hnd
    show dictGet (processOptions (checkOption d [] k0 s0).1 (checkOption d [] k0 s0).2 rest).1 k = _
    rw [checkOption_eq, processOptions_append rest (keyCfg d k0 s0)]
    rcases List.mem_cons.mp hm with heq | hrest
    · have hk : k = k0 := congrArg Prod.fst heq
      have hs : s = s0 := congrArg Prod.snd heq
      subst hk
      subst hs
      have hnotin : k ∉ rest.map Prod.fst := hnd.1
      rw [processOptions_get_not_mem rest (keyCfg d k s) k hnotin]
      unfold keyCfg
      cases hv : dictGet d k with
      | some v => simp [hv]
      | none =>
        by_cases hr : s.required = true
        · simp [hr, hv]
        · simp [hr, dictGet_dictSet_self d k s.default]
    · have hk0 : k ≠ k0 := by
        intro hkk
        have hmem : k ∈ rest.map Prod.fst := List.mem_map_of_mem Prod.fst hrest
        rw [hkk] at hmem
        exact hnd.1 hmem
      rw [ih (keyCfg d k0 s0) k s hnd.2 hrest,
        dictGet_keyCfg_ne d k0 k s0 hk0]

theorem optionsKeys_nodup : (optionsList.map Prod.fst).Nodup := by decide

theorem errorsOf_eq_flatten (d : Config) :
    errorsOf d = (optionsList.map fun p => keyMsg d p.1 p.2).flatten :=
  processOptions_errors_flatten optionsList d optionsKeys_nodup

theorem resultOf_get_mem (d : Config) (k : List Char) (s : OptionSpec)
    (hm : (k, s) ∈ optionsList) :
    dictGet (resultOf d) k =
      (match dictGet d k with
       | some v => some v
       | none => if s.required then none else some s.default) :=
  processOptions_get_mem optionsList d k s optionsKeys_nodup hm

theorem resultOf_get_not_mem (d : Config) (k : List Char)
    (hk : k ∉ optionsList.map Prod.fst) :
    dictGet (resultOf d) k = dictGet d k :=
  processOptions_get_not_mem optionsList d k hk

theorem validateConfig_ok_elim (d : Config) (c : Config)
    (h : validateConfig d = Except.ok c) :
    errorsOf d = [] ∧ c = resultOf d := by
  unfold validateConfig at h
  by_cases hl : (processOptions d [] optionsList).2.length ≠ 0
  · rw [if_pos hl] at h
    exact absurd h (by simp)
  · rw [if_neg hl] at h
    push_neg at hl
    refine ⟨List.eq_nil_of_length_eq_zero hl, ?_⟩
    exact (Except.ok.injEq .. ▸ h).symm

theorem typeErrMsg_ne_nil (k : List Char) (v : JValue) (s : OptionSpec) :
    typeErrMsg k v s ≠ [] := by
  unfold typeErrMsg
  intro h
  have := congrArg List.length h
  simp at this

theorem missingErrMsg_ne_nil (k : List Char) : missingErrMsg k ≠ [] := by
  unfold missingErrMsg
  intro h
  have := congrArg List.length h
  simp at this

theorem keyMsg_ne_nil_iff (d : Config) (k : List Char) (s : OptionSpec) :
    keyMsg d k s ≠ [] ↔
      (∃ v, dictGet d k = some v ∧ typeOf v ≠ s.type) ∨
        (dictGet d k = none ∧ s.required = true) := by
  unfold keyMsg
  cases hv : dictGet d k with
  | some v =>
    by_cases ht : typeOf v = s.type
    · simp [ht]
    · simp [ht, typeErrMsg_ne_nil]
  | none =>
    by_cases hr : s.required = true
    · simp [hr, missingErrMsg_ne_nil]
    · simp [hr]

/-! ## Lemmas about the build loop -/

theorem buildLoop_cons_found (env : Env) (cfg : RunConfig) (arch : List Char)
    (rest : List (List Char)) (i k : Nat)
    (h : env.fileExists (formatStringArch (env.rand k) arch cfg.build) = true) :
    buildLoop env cfg (arch :: rest) i k =
      (Event.tmpCreate (env.tmpdir i) :: Event.logBuilding arch ::
        Event.invoke (buildCommand cfg arch (env.tmpdir i) (env.rand (k + 1))
          (env.rand (k + 2)) (env.rand (k + 3))) ::
        Event.logOutput (tagJoin dockerTag
          (env.run (buildCommand cfg arch (env.tmpdir i) (env.rand (k + 1))
            (env.rand (k + 2)) (env.rand (k + 3)))).fst) ::
        Event.tmpRemove (env.tmpdir i) ::
        (buildLoop env cfg rest (i + 1) (k + 4)).fst,
       (buildLoop env cfg rest (i + 1) (k + 4)).snd) := by
  simp [buildLoop, h]

theorem buildLoop_cons_missing (env : Env) (cfg : RunConfig) (arch : List Char)
    (rest : List (List Char)) (i k : Nat)
    (h : env.fileExists (formatStringArch (env.rand k) arch cfg.build) = false) :
    buildLoop env cfg (arch :: rest) i k =
      ([Event.tmpCreate (env.tmpdir i), Event.logBuilding arch,
        Event.logError (cannotFindMsg
          (formatStringArch (env.rand (k + 1)) arch cfg.build)),
        Event.tmpRemove (env.tmpdir i)], 1) := by
  simp [buildLoop, h]

theorem volumesString_eq_flatten (vs : List (List Char)) :
    volumesString vs = (vs.map mountArg).flatten := by
  suffices h : ∀ (acc : List Char),
      vs.foldl (fun a v => a ++ mountArg v) acc = acc ++ (vs.map mountArg).flatten by
    simpa using h []
  induction vs with
  | nil => intro acc; simp
  | cons v rest ih => intro acc; simp [ih, List.append_assoc]

/-! ## The claims -/

/-- Claim C5: for every validated configuration and architecture, the
container-invocation command string is composed, in order, of the `docker run`
prefix, an auto-remove flag present if and only if `removecontainers` is true,
a mount of the fresh temporary directory at the fixed in-container path
`/buildcommand`, the templated container name, the volume mount arguments each
formatted and concatenated order-preservingly from the `volumes` list, the
templated extra docker arguments, the templated image reference, and the fixed
invocation `bash /buildcommand/build.sh` with combined output redirected to a
single stream (`2>&1`). -/
theorem buildCommand_composition (cfg : RunConfig) (arch tmpdir : List Char)
    (g1 g2 g3 : Nat → Fin 26) :
    buildCommand cfg arch tmpdir g1 g2 g3 =
      "docker run ".data ++
      (if cfg.removecontainers then "--rm".data else []) ++
      " -v \"".data ++ tmpdir ++ ":/buildcommand\" --name \"".data ++
      formatStringArch g1 arch cfg.containername ++ "\" ".data ++
      (cfg.volumes.map mountArg).flatten ++ " ".data ++
      formatStringArch g3 arch cfg.dockerargs ++ " \"".data ++
      formatStringArch g2 arch cfg.image ++
      "\" bash /buildcommand/build.sh 2>&1".data := by
  rw [← volumesString_eq_flatten]
  have h : buildCommand cfg arch tmpdir g1 g2 g3 =
      "docker run ".data ++
      ((if cfg.removecontainers then "--rm".data else []) ++
      (" -v \"".data ++ (tmpdir ++ (":/buildcommand\" --name \"".data ++
      (formatStringArch g1 arch cfg.containername ++ ("\" ".data ++
      (volumesString cfg.volumes ++ (" ".data ++
      (formatStringArch g3 arch cfg.dockerargs ++ (" \"".data ++
      (formatStringArch g2 arch cfg.image ++
      "\" bash /buildcommand/build.sh 2>&1".data))))))))))) := rfl
  rw [h]
  simp only [List.append_assoc]

/-- Claim C8: every temporary staging directory created by an iteration of the
build loop is removed when that iteration ends — whether the container
invocation succeeds, fails with a non-zero exit code (the loop never inspects
it), or the iteration aborts the run because the build script is missing —
because the `with tempfile.TemporaryDirectory()` scope guarantees cleanup on
both normal exit and the `SystemExit` raised by `exit(1)`. -/
theorem buildLoop_tmpdirs_removed (env : Env) (cfg : RunConfig) :
    ∀ (arches : List (List Char)) (i k : Nat),
      createdDirs (buildLoop env cfg arches i k).fst =
        removedDirs (buildLoop env cfg arches i k).fst := by
  intro arches
  induction arches with
  | nil => intro i k; rfl
  | cons arch rest ih =>
    intro i k
    cases h : env.fileExists (formatStringArch (env.rand k) arch cfg.build) with
    | true =>
      rw [buildLoop_cons_found env cfg arch rest i k h]
      simp only [createdDirs, removedDirs, List.filterMap_cons] at *
      rw [ih (i + 1) (k + 4)]
    | false =>
      rw [buildLoop_cons_missing env cfg arch rest i k h]
      rfl

/-- Claim C6 counterexample: it is not the case that the two random tokens
produced by expanding the template with two random placeholders can differ
within one expansion call — for every random stream the first 20 characters
of the result equal the characters after the separator, because
`formatStringArch` evaluates `randomstr(20)` once and `str.replace`
substitutes that single value for every occurrence. -/
theorem expand_double_random_tokens_never_differ :
    ¬ ∃ g : Nat → Fin 26,
      (formatStringArch g "x86".data "{random}-{random}".data).take 20 ≠
        (formatStringArch g "x86".data "{random}-{random}".data).drop 21 := by
  rintro ⟨g, hne⟩
  apply hne
  rw [expand_double_random]
  set r := randomstr g 20 with hr
  have hlen : r.length = 20 := by rw [hr]; exact randomstr_length g 20
  rw [List.take_left' hlen, List.append_cons,
    List.drop_left' (show (r ++ ['-']).length = 21 by simp [hlen])]

/-- Claim C6 (amended): expanding the template `"{random}-{random}"` yields
two tokens, each exactly 20 characters drawn only from lowercase ASCII
letters, and the two tokens are always equal: the same single random value is
substituted for both placeholder occurrences of one expansion call. -/
theorem expand_double_random_same_token (g : Nat → Fin 26) :
    ∃ r : List Char, r.length = 20 ∧ (∀ c ∈ r, c ∈ ascii_lowercase) ∧
      formatStringArch g "x86".data "{random}-{random}".data = r ++ '-' :: r :=
  ⟨randomstr g 20, randomstr_length g 20, fun _ hc => randomstr_mem g 20 hc,
    expand_double_random g "x86".data⟩

/-- Claim C9: within a single `formatStringArch` call one random 20-character
string is generated for the whole call, so every occurrence of the random
placeholder is replaced by the same value; distinct calls (distinct random
streams) are the only way to obtain distinct substitutions. -/
theorem formatStringArch_single_random_per_call :
    (∀ (g : Nat → Fin 26) (arch : List Char), ∃ r : List Char,
        formatStringArch g arch "{random}-{random}".data = r ++ '-' :: r) ∧
      ∃ g1 g2 : Nat → Fin 26,
        formatStringArch g1 "x86".data "{random}".data ≠
          formatStringArch g2 "x86".data "{random}".data := by
  constructor
  · intro g arch
    exact ⟨randomstr g 20, expand_double_random g arch⟩
  · exact ⟨randA, randB, by decide⟩

/-- Claim C1: if the templated build-script path of some architecture names no
existing file, the run fails fatally with exit code 1 before any container is
invoked for that architecture or any later one, the missing-script error is
logged, and every architecture earlier in the list has already had its
container invoked — the scan is strictly sequential front-to-back with no
reordering or skipping. -/
theorem buildLoop_missing_script_aborts (env : Env) (cfg : RunConfig) :
    ∀ (pre : List (List Char)) (a : List Char) (post : List (List Char))
      (i k : Nat),
      allScriptsFound env cfg pre k →
      env.fileExists
        (formatStringArch (env.rand (k + 4 * pre.length)) a cfg.build) = false →
      (buildLoop env cfg (pre ++ a :: post) i k).snd = 1 ∧
      invokedCmds (buildLoop env cfg (pre ++ a :: post) i k).fst =
        expectedCmds env cfg pre i k ∧
      Event.logError (cannotFindMsg
          (formatStringArch (env.rand (k + 4 * pre.length + 1)) a cfg.build)) ∈
        (buildLoop env cfg (pre ++ a :: post) i k).fst := by
  intro pre
  induction pre with
  | nil =>
    intro a post i k _ ha
    simp only [List.length_nil, Nat.mul_zero, Nat.add_zero] at ha ⊢
    rw [List.nil_append, buildLoop_cons_missing env cfg a post i k ha]
    exact ⟨rfl, rfl, by simp⟩
  | cons p pre ih =>
    intro a post i k hpre ha
    have hfound := hpre.1
    have hshift : k + 4 * (p :: pre).length = (k + 4) + 4 * pre.length := by
      simp [List.length_cons]
      ring
    rw [hshift] at ha
    have hrec := ih a post (i + 1) (k + 4) hpre.2 ha
    rw [List.cons_append, buildLoop_cons_found env cfg p (pre ++ a :: post) i k hfound]
    refine ⟨hrec.1, ?_, ?_⟩
    · simp only [invokedCmds, List.filterMap_cons] at hrec ⊢
      rw [hrec.2.1]
      rfl
    · rw [hshift]
      simp only [List.mem_cons]
      right; right; right; right; right
      exact hrec.2.2

/-- Claim C1 witness: with arches `a`, `b`, `c` where only the build script
for `a` exists, the run exits with code 1 and exactly the container for `a`
was invoked. -/
theorem buildLoop_missing_script_aborts_wit :
    (allScriptsFound envMissing loopCfg ["a".data] 0 ∧
      envMissing.fileExists
        (formatStringArch (envMissing.rand (0 + 4 * ["a".data].length))
          "b".data loopCfg.build) = false) ∧
    (buildLoop envMissing loopCfg (["a".data] ++ "b".data :: ["c".data]) 0 0).snd = 1 ∧
    invokedCmds
        (buildLoop envMissing loopCfg (["a".data] ++ "b".data :: ["c".data]) 0 0).fst =
      expectedCmds envMissing loopCfg ["a".data] 0 0 := by
  have h := buildLoop_missing_script_aborts envMissing loopCfg ["a".data]
    "b".data ["c".data] 0 0 (by exact ⟨by decide, trivial⟩) (by decide)
  exact ⟨⟨⟨by decide, trivial⟩, by decide⟩, h.1, h.2.1⟩

/-- Claim C2: a non-zero exit code from a build container is non-fatal — the
loop never inspects the return code (`env.run`'s exit component is arbitrary
here), so whenever every architecture's build script is found, every
architecture's container is invoked in order, each captured output is logged,
and the process exits with status 0 regardless of the containers' exit
codes. -/
theorem buildLoop_container_failure_nonfatal (env : Env) (cfg : RunConfig) :
    ∀ (arches : List (List Char)) (i k : Nat),
      allScriptsFound env cfg arches k →
      (buildLoop env cfg arches i k).snd = 0 ∧
      invokedCmds (buildLoop env cfg arches i k).fst =
        expectedCmds env cfg arches i k ∧
      loggedOutputs (buildLoop env cfg arches i k).fst =
        expectedOutputs env cfg arches i k := by
  intro arches
  induction arches with
  | nil => intro i k _; exact ⟨rfl, rfl, rfl⟩
  | cons arch rest ih =>
    intro i k hall
    have hrec := ih (i + 1) (k + 4) hall.2
    rw [buildLoop_cons_found env cfg arch rest i k hall.1]
    refine ⟨hrec.1, ?_, ?_⟩
    · simp only [invokedCmds, List.filterMap_cons] at hrec ⊢
      rw [hrec.2.1]
      rfl
    · simp only [loggedOutputs, List.filterMap_cons] at hrec ⊢
      rw [hrec.2.2]
      rfl

/-- Claim C2 witness: with two architectures whose scripts exist and an
environment whose containers always return exit code 2, both containers run,
both outputs are logged, and the process exit code is 0. -/
theorem buildLoop_container_failure_nonfatal_wit :
    allScriptsFound envFailing loopCfg ["a".data, "b".data] 0 ∧
    (buildLoop envFailing loopCfg ["a".data, "b".data] 0 0).snd = 0 ∧
    loggedOutputs (buildLoop envFailing loopCfg ["a".data, "b".data] 0 0).fst =
      expectedOutputs envFailing loopCfg ["a".data, "b".data] 0 0 := by
  have hall : allScriptsFound envFailing loopCfg ["a".data, "b".data] 0 :=
    ⟨rfl, rfl, trivial⟩
  have h := buildLoop_container_failure_nonfatal envFailing loopCfg
    ["a".data, "b".data] 0 0 hall
  exact ⟨hall, h.1, h.2.2⟩

/-- Claim C7: template expansion replaces every occurrence of the literal
token for the architecture placeholder with the architecture identifier
(`expand("arm64", "img-{arch}") = "img-arm64"`; the general occurrence is
substituted in place), and any template containing neither the architecture
nor the random placeholder passes through unchanged. -/
theorem formatStringArch_arch_substitution (g : Nat → Fin 26)
    (arch t u v : List Char)
    (ht1 : occurs "{arch}".data t = false)
    (ht2 : occurs "{random}".data t = false)
    (hu : ∀ i, i < u.length →
      listStartsWith "{arch}".data ((u ++ ("{arch}".data ++ v)).drop i) = false)
    (hr : occurs "{random}".data
      (u ++ arch ++ pyReplace v "{arch}".data arch) = false) :
    formatStringArch g "arm64".data "img-{arch}".data = "img-arm64".data ∧
    formatStringArch g arch t = t ∧
    formatStringArch g arch (u ++ ("{arch}".data ++ v)) =
      u ++ arch ++ pyReplace v "{arch}".data arch := by
  refine ⟨rfl, formatStringArch_no_placeholders g arch t ht1 ht2, ?_⟩
  unfold formatStringArch
  rw [pyReplace_mid u "{arch}".data v arch (by decide) hu]
  exact pyReplace_not_occurs _ _ _ hr

/-- Claim C7 witness: concrete instantiation — expanding `img-{arch}` for the
architecture `X` substitutes `X` for the placeholder, and the token `{foo}`
passes through unchanged. -/
theorem formatStringArch_arch_substitution_wit :
    (occurs "{arch}".data "{foo}".data = false ∧
      occurs "{random}".data "{foo}".data = false ∧
      (∀ i, i < "img-".data.length →
        listStartsWith "{arch}".data
          (("img-".data ++ ("{arch}".data ++ [])).drop i) = false) ∧
      occurs "{random}".data
        ("img-".data ++ "X".data ++ pyReplace [] "{arch}".data "X".data) = false) ∧
    formatStringArch randA "X".data "{foo}".data = "{foo}".data ∧
    formatStringArch randA "X".data ("img-".data ++ ("{arch}".data ++ [])) =
      "img-".data ++ "X".data ++ pyReplace [] "{arch}".data "X".data := by
  have h := formatStringArch_arch_substitution randA "X".data "{foo}".data
    "img-".data [] (by decide) (by decide) (by decide) (by decide)
  exact ⟨⟨by decide, by decide, by decide, by decide⟩, h.2.1, h.2.2⟩

/-- Claim C3: validation checks all schema fields without short-circuiting —
every present-but-wrong-typed field contributes its error message (naming the
field, its actual type and its expected type) to the accumulated error text,
every absent required field contributes its missing-option message, and
validation fails carrying the full joined error text if and only if at least
one such error was accumulated. -/
theorem validateConfig_accumulates_all_errors (d : Config) :
    (∀ k s v, (k, s) ∈ optionsList → dictGet d k = some v → typeOf v ≠ s.type →
        occurs (typeErrMsg k v s) (errorsOf d) = true) ∧
    (∀ k s, (k, s) ∈ optionsList → dictGet d k = none → s.required = true →
        occurs (missingErrMsg k) (errorsOf d) = true) ∧
    (validateConfig d = Except.error (errorsOf d) ↔ errorsOf d ≠ []) ∧
    (errorsOf d ≠ [] ↔ ∃ k s, (k, s) ∈ optionsList ∧
        ((∃ v, dictGet d k = some v ∧ typeOf v ≠ s.type) ∨
          (dictGet d k = none ∧ s.required = true))) := by
  refine ⟨?_, ?_, ?_, ?_⟩
  · intro k s v hm hget hty
    have hmsg : keyMsg d k s = typeErrMsg k v s := by
      simp [keyMsg, hget, hty]
    rw [errorsOf_eq_flatten, ← hmsg]
    exact occurs_flatten_of_mem
      (List.mem_map_of_mem (fun p => keyMsg d p.1 p.2) hm)
  · intro k s hm hget hreq
    have hmsg : keyMsg d k s = missingErrMsg k := by
      simp [keyMsg, hget, hreq]
    rw [errorsOf_eq_flatten, ← hmsg]
    exact occurs_flatten_of_mem
      (List.mem_map_of_mem (fun p => keyMsg d p.1 p.2) hm)
  · constructor
    · intro h hnil
      have : validateConfig d = Except.ok (resultOf d) := by
        unfold validateConfig
        rw [if_neg (by simpa [errorsOf] using congrArg List.length hnil)]
        rfl
      rw [this] at h
      exact Except.noConfusion h
    · intro hne
      unfold validateConfig
      rw [if_pos (by simpa [errorsOf, List.length_eq_zero] using hne)]
      rfl
  · rw [errorsOf_eq_flatten]
    constructor
    · intro h
      have hex : ∃ x ∈ optionsList.map fun p => keyMsg d p.1 p.2, x ≠ [] := by
        by_contra hc
        push_neg at hc
        exact h (List.flatten_eq_nil_iff.mpr hc)
      obtain ⟨x, hx, hxne⟩ := hex
      obtain ⟨p, hp, rfl⟩ := List.mem_map.mp hx
      exact ⟨p.1, p.2, by simpa using hp, (keyMsg_ne_nil_iff d p.1 p.2).mp hxne⟩
    · rintro ⟨k, s, hm, hbad⟩
      intro hflat
      exact (keyMsg_ne_nil_iff d k s).mpr hbad
        (List.flatten_eq_nil_iff.mp hflat _
          (List.mem_map_of_mem (fun p => keyMsg d p.1 p.2) hm))

/-- Claim C3 witness: on a configuration whose `volumes` is a string and whose
`arches` is absent, the accumulated error text contains both the type-mismatch
message (naming field, actual type `str`, expected type `list`) and the
missing-option message, and validation fails with the full text. -/
theorem validateConfig_accumulates_all_errors_wit :
    (("volumes".data, volumesSpec) ∈ optionsList ∧
      dictGet badConfig "volumes".data = some (JValue.vstr "x".data) ∧
      typeOf (JValue.vstr "x".data) ≠ volumesSpec.type ∧
      ("arches".data, archesSpec) ∈ optionsList ∧
      dictGet badConfig "arches".data = none ∧
      archesSpec.required = true) ∧
    occurs (typeErrMsg "volumes".data (JValue.vstr "x".data) volumesSpec)
      (errorsOf badConfig) = true ∧
    occurs (missingErrMsg "arches".data) (errorsOf badConfig) = true ∧
    validateConfig badConfig = Except.error (errorsOf badConfig) := by
  have hm1 : ("volumes".data, volumesSpec) ∈ optionsList :=
    List.mem_cons_self _ _
  have hm2 : ("arches".data, archesSpec) ∈ optionsList :=
    List.mem_cons_of_mem _ (List.mem_cons_of_mem _ (List.mem_cons_self _ _))
  have h := validateConfig_accumulates_all_errors badConfig
  refine ⟨⟨hm1, rfl, by decide, hm2, rfl, rfl⟩, ?_, ?_, ?_⟩
  · exact h.1 "volumes".data volumesSpec (JValue.vstr "x".data) hm1 rfl (by decide)
  · exact h.2.1 "arches".data archesSpec hm2 rfl rfl
  · exact h.2.2.1.mpr (by decide)

/-- Claim C4: every configuration that passes validation is returned with all
seven schema keys present, each absent optional key populated from its
declared default: `dockerargs` from the empty string, `containername` from
the literal template, `removecontainers` from `True`. -/
theorem validateConfig_ok_has_all_keys (d c : Config)
    (h : validateConfig d = Except.ok c) :
    (∀ k s, (k, s) ∈ optionsList → ∃ v, dictGet c k = some v) ∧
    (dictGet d "dockerargs".data = none →
      dictGet c "dockerargs".data = some (JValue.vstr "".data)) ∧
    (dictGet d "containername".data = none →
      dictGet c "containername".data = some (JValue.vstr "{random}-{arch}".data)) ∧
    (dictGet d "removecontainers".data = none →
      dictGet c "removecontainers".data = some (JValue.vbool true)) := by
  obtain ⟨herr, rfl⟩ := validateConfig_ok_elim d c h
  refine ⟨?_, ?_, ?_, ?_⟩
  · intro k s hm
    rw [resultOf_get_mem d k s hm]
    cases hv : dictGet d k with
    | some v => exact ⟨v, rfl⟩
    | none =>
      by_cases hr : s.required = true
      · exfalso
        have hne := (keyMsg_ne_nil_iff d k s).mpr (Or.inr ⟨hv, hr⟩)
        rw [errorsOf_eq_flatten] at herr
        exact hne (List.flatten_eq_nil_iff.mp herr _
          (List.mem_map_of_mem (fun p => keyMsg d p.1 p.2) hm))
      · exact ⟨s.default, by simp [hr]⟩
  · intro hnone
    rw [resultOf_get_mem d "dockerargs".data dockerargsSpec
      (List.mem_cons_of_mem _ (List.mem_cons_self _ _)), hnone]
    rfl
  · intro hnone
    rw [resultOf_get_mem d "containername".data containernameSpec
      (List.mem_cons_of_mem _ (List.mem_cons_of_mem _ (List.mem_cons_of_mem _
        (List.mem_cons_of_mem _ (List.mem_cons_self _ _))))), hnone]
    rfl
  · intro hnone
    rw [resultOf_get_mem d "removecontainers".data removecontainersSpec
      (List.mem_cons_of_mem _ (List.mem_cons_of_mem _ (List.mem_cons_of_mem _
        (List.mem_cons_of_mem _ (List.mem_cons_of_mem _ (List.mem_cons_of_mem _
          (List.mem_cons_self _ _))))))), hnone]
    rfl

/-- Claim C4 witness: validating a configuration with only the four required
keys succeeds and populates the three optional keys from their declared
defaults. -/
theorem validateConfig_ok_has_all_keys_wit :
    validateConfig okConfig = Except.ok (resultOf okConfig) ∧
    dictGet (resultOf okConfig) "dockerargs".data = some (JValue.vstr "".data) ∧
    dictGet (resultOf okConfig) "containername".data =
      some (JValue.vstr "{random}-{arch}".data) ∧
    dictGet (resultOf okConfig) "removecontainers".data =
      some (JValue.vbool true) := by
  have hok : validateConfig okConfig = Except.ok (resultOf okConfig) := rfl
  have h := validateConfig_ok_has_all_keys okConfig (resultOf okConfig) hok
  exact ⟨hok, h.2.1 rfl, h.2.2.1 rfl, h.2.2.2 rfl⟩

/-- Claim C10: validation inspects only the seven schema keys — an unknown key
is never reported (the error text depends only on the configuration's values
at schema keys) and is neither removed nor altered: it appears unchanged in
the validated configuration. -/
theorem validateConfig_unknown_key_frame (d d2 : Config) (k : List Char)
    (hk : k ∉ optionsList.map Prod.fst) :
    (∀ c, validateConfig d = Except.ok c → dictGet c k = dictGet d k) ∧
    ((∀ k2 s2, (k2, s2) ∈ optionsList → dictGet d k2 = dictGet d2 k2) →
      errorsOf d = errorsOf d2) := by
  constructor
  · intro c hc
    obtain ⟨_, rfl⟩ := validateConfig_ok_elim d c hc
    exact resultOf_get_not_mem d k hk
  · intro hsame
    rw [errorsOf_eq_flatten, errorsOf_eq_flatten]
    refine congrArg List.flatten (List.map_congr_left fun p hp => ?_)
    refine keyMsg_congr d d2 p.1 p.2 (hsame p.1 p.2 ?_)
    rw [Prod.mk.eta]
    exact hp

/-- Claim C10 witness: a configuration carrying the unknown key `extra`
validates successfully and the validated configuration still maps `extra` to
its original value. -/
theorem validateConfig_unknown_key_frame_wit :
    ("extra".data ∉ optionsList.map Prod.fst ∧
      validateConfig extraConfig = Except.ok (resultOf extraConfig)) ∧
    dictGet (resultOf extraConfig) "extra".data =
      dictGet extraConfig "extra".data := by
  refine ⟨⟨by decide, rfl⟩, ?_⟩
  exact (validateConfig_unknown_key_frame extraConfig extraConfig "extra".data
    (by decide)).1 (resultOf extraConfig) rfl

end MultiArchCompiler
